import Mathlib

/-!
# Verification of the UMATO layout optimizers (`umato/layouts.py`)

A shallow embedding of the two layout optimizers of the repository:

* `nn_layout_optimize` / `_nn_layout_optimize_single_epoch` — the local,
  edge-sampled stochastic layout optimizer;
* `optimize_global_layout` — the dense global refinement pass.

Python floats are embedded as exact rationals (`ℚ`).  The float `pow`
with a symbolic exponent (the curve parameter `b`) is not an exact
rational operation, so the embedding is parametrised by an arbitrary
function `fpow : ℚ → ℚ → ℚ` standing for it; `pow(x, -1)` with the
literal exponent `-1` denotes the exact reciprocal.  Arrays are embedded
as functions `ℕ → ℚ` / `ℕ → ℕ → ℚ` together with explicit extents, and
in-place mutation as explicit state passing.  The pseudo-random stream
produced by repeated `tau_rand_int` calls is embedded as a function
`draws : ℕ → ℕ` from draw position to drawn value, with the current
position threaded through the state.  The negative-sampling rejection
loop (`while True: ...`) is given explicit fuel; exhausting the fuel
yields `none`, so a run that reaches a rejection loop that can never
accept is `none` for every fuel, which is how divergence is rendered.
A raised `NameError` is rendered as a `Bool` flag on the result.
-/

namespace Umato

/-- A matrix (2-d numpy array) of rationals, unbounded function representation;
the extents are carried separately. -/
def Mat : Type := ℕ → ℕ → ℚ

/-- Point update of a one-dimensional array. -/
def upd1 (f : ℕ → ℚ) (i : ℕ) (v : ℚ) : ℕ → ℚ :=
  fun i' => if i' = i then v else f i'

/-- Point update of a matrix cell. -/
def upd2 (f : Mat) (i j : ℕ) (v : ℚ) : Mat :=
  fun i' j' => if i' = i ∧ j' = j then v else f i' j'

/-- Modelled from the spec: `clip` from `umato/utils.py` (the file is not
under `src/`); §7 of the spec describes it as clamping a per-dimension
displacement to `±bound` ("bounded by clipping every per-dimension
displacement to ±10"). -/
def clip (v bound : ℚ) : ℚ :=
  if v > bound then bound else if v < -bound then -bound else v

/-- Modelled from the spec: `rdist` from `umato/utils.py` (not under
`src/`); §4.1 of the spec describes it as the squared Euclidean distance
between two embedded positions. -/
def rdist (dim : ℕ) (x y : ℕ → ℚ) : ℚ :=
  ∑ d ∈ Finset.range dim, (x d - y d) ^ 2

/-- Python `int()` applied to a float value: truncation toward zero. -/
def pyInt (q : ℚ) : ℤ :=
  if 0 ≤ q then ⌊q⌋ else -⌊-q⌋

/-- A concrete instance of the abstract float-power parameter, adequate for
the concrete runs in this file, where the exponent is a small natural
number (`b = 1`, so the exponents `b` and `b - 1` are `1` and `0`). -/
def powTrunc (x e : ℚ) : ℚ := x ^ e.num.toNat

/-- The mutable store of the local optimizer: the two coordinate arrays
(`head_embedding` / `tail_embedding`), the two per-edge counter arrays
(`epoch_of_next_sample` / `epoch_of_next_negative_sample`), the position
reached in the pseudo-random draw stream, and two observation-only
counters (`attrUpd`, `negUpd`) recording how many attractive-step and
negative-sampling-step coordinate writes have been executed; the two
observation counters influence nothing. -/
structure LocalState where
  H : Mat
  T : Mat
  eons : ℕ → ℚ
  eonns : ℕ → ℚ
  pos : ℕ
  attrUpd : ℕ
  negUpd : ℕ

/-- The read-only parameters of `_nn_layout_optimize_single_epoch`
(everything passed to it that the kernel does not mutate), plus the
embedding-level parameters: the abstract float power `fpow`, the
pseudo-random draw stream `draws`, whether the caller passed the same
array for `head_embedding` and `tail_embedding` (`aliased`), and the
rejection-loop fuel. -/
structure LocalParams where
  head : ℕ → ℕ
  tail : ℕ → ℕ
  hub_info : ℕ → ℤ
  n_vertices : ℕ
  epochs_per_sample : ℕ → ℚ
  a : ℚ
  b : ℚ
  gamma : ℚ
  dim : ℕ
  move_other : Bool
  epochs_per_negative_sample : ℕ → ℚ
  nEdges : ℕ
  aliased : Bool
  draws : ℕ → ℕ
  fuel : ℕ
  fpow : ℚ → ℚ → ℚ

/-- Read `tail_embedding[k][d]`: the head array when the two arrays alias. -/
def readT (P : LocalParams) (st : LocalState) (k d : ℕ) : ℚ :=
  if P.aliased then st.H k d else st.T k d

/-- Write `tail_embedding[k][d]`: the head array when the two arrays alias. -/
def writeT (P : LocalParams) (st : LocalState) (k d : ℕ) (v : ℚ) : LocalState :=
  if P.aliased then { st with H := upd2 st.H k d v } else { st with T := upd2 st.T k d v }

/-- The attractive per-dimension displacement of the kernel:
`grad_d = clip(grad_coeff * (current[d] - other[d]), 10.0)`. -/
def attrGradD (grad_coeff cur oth : ℚ) : ℚ :=
  clip (grad_coeff * (cur - oth)) 10

/-- The repulsive per-dimension displacement of the kernel:
`clip(grad_coeff * (current[d] - other[d]), 10.0)` when `grad_coeff > 0`,
and the flat value `10.0` otherwise. -/
def negGradD (grad_coeff cur oth : ℚ) : ℚ :=
  if grad_coeff > 0 then clip (grad_coeff * (cur - oth)) 10 else 10

/-- The scale applied to the `current` (head) endpoint, selected from the
hub label of the edge's tail vertex: `grad_current` in the source
(`0.01` for labels 1 and 2, `0.0` otherwise). -/
def gradCurrentOf (h : ℤ) : ℚ :=
  if h = 1 then 1/100 else if h = 2 then 1/100 else 0

/-- The scale applied to the `other` (tail) endpoint, selected from the
hub label of the edge's tail vertex: `grad_other` in the source
(`0.01` for label 1, `0.001` for label 2, `0.0` otherwise). -/
def gradOtherOf (h : ℤ) : ℚ :=
  if h = 1 then 1/100 else if h = 2 then 1/1000 else 0

/-- The body of the attractive `for d in range(dim)` loop of the kernel at
dimension `d`: compute the clipped displacement from the pre-update
coordinates of dimension `d`, add `grad_d * alpha * grad_current` to
`current[d]`, and, when `move_other`, add `-grad_d * alpha * grad_other`
to `other[d]`.  (The source also assigns the constant `grad_neg = 0.001`
here, used only by the negative loop; it is inlined there.) -/
def attrBody (P : LocalParams) (j k : ℕ) (grad_coeff alpha : ℚ) (d : ℕ)
    (st : LocalState) : LocalState :=
  let grad_d := attrGradD grad_coeff (st.H j d) (readT P st k d)
  let st1 : LocalState :=
    { st with
      H := upd2 st.H j d (st.H j d + grad_d * alpha * gradCurrentOf (P.hub_info k)),
      attrUpd := st.attrUpd + 1 }
  if P.move_other then
    writeT P st1 k d (readT P st1 k d + -grad_d * alpha * gradOtherOf (P.hub_info k))
  else st1

/-- The attractive `for d in range(dim)` loop of the kernel, processing
dimensions `d`, `d+1`, …, `d+rem-1`. -/
def attrLoop (P : LocalParams) (j k : ℕ) (grad_coeff alpha : ℚ) :
    ℕ → ℕ → LocalState → LocalState
  | 0, _, st => st
  | rem + 1, d, st =>
    attrLoop P j k grad_coeff alpha rem (d + 1) (attrBody P j k grad_coeff alpha d st)

/-- The rejection loop `while True: k = tau_rand_int(rng_state) % n_vertices;
if hub_info[k] > 0: break`, with explicit fuel: returns the accepted vertex
and the advanced draw position, or `none` when the fuel is exhausted. -/
def rejectionSample (hub : ℕ → ℤ) (nv : ℕ) (draws : ℕ → ℕ) :
    ℕ → ℕ → Option (ℕ × ℕ)
  | _, 0 => none
  | pos, fuel + 1 =>
    let k := draws pos % nv
    if 0 < hub k then some (k, pos + 1) else rejectionSample hub nv draws (pos + 1) fuel

/-- The body of the repulsive `for d in range(dim)` loop of the kernel at
dimension `d`: `current[d] += grad_d * alpha * grad_neg` with
`grad_neg = 0.001`. -/
def negBody (P : LocalParams) (j k : ℕ) (grad_coeff alpha : ℚ) (d : ℕ)
    (st : LocalState) : LocalState :=
  let grad_d := negGradD grad_coeff (st.H j d) (readT P st k d)
  { st with
    H := upd2 st.H j d (st.H j d + grad_d * alpha * (1/1000)),
    negUpd := st.negUpd + 1 }

/-- The repulsive `for d in range(dim)` loop of the kernel, processing
dimensions `d`, `d+1`, …, `d+rem-1`. -/
def negWrite (P : LocalParams) (j k : ℕ) (grad_coeff alpha : ℚ) :
    ℕ → ℕ → LocalState → LocalState
  | 0, _, st => st
  | rem + 1, d, st =>
    negWrite P j k grad_coeff alpha rem (d + 1) (negBody P j k grad_coeff alpha d st)

/-- The part of a negative-sampling iteration after the vertex `k` has been
drawn: recompute the squared distance from the current head position, and
either apply the repulsive per-dimension updates (`dist_squared > 0`), or
`continue` without any update (`dist_squared = 0` and the drawn vertex is
the head vertex `j`), or apply the flat updates with `grad_coeff = 0`. -/
def negApply (P : LocalParams) (j : ℕ) (alpha : ℚ) (k : ℕ) (st : LocalState) :
    LocalState :=
  let dist_squared := rdist P.dim (st.H j) (fun d => readT P st k d)
  if dist_squared > 0 then
    let grad_coeff := 2 * P.gamma * P.b /
      ((1/1000 + dist_squared) * (P.a * P.fpow dist_squared P.b + 1))
    negWrite P j k grad_coeff alpha P.dim 0 st
  else if j = k then
    st
  else
    negWrite P j k 0 alpha P.dim 0 st

/-- One iteration of the negative-sampling loop `for p in range(n_neg_samples)`:
draw (with rejection) a vertex `k`, then apply `negApply`. -/
def negIter (P : LocalParams) (j : ℕ) (alpha : ℚ) (st : LocalState) :
    Option LocalState :=
  match rejectionSample P.hub_info P.n_vertices P.draws st.pos P.fuel with
  | none => none
  | some (k, pos') => some (negApply P j alpha k { st with pos := pos' })

/-- The negative-sampling loop, `n_neg_samples` iterations. -/
def negLoop (P : LocalParams) (j : ℕ) (alpha : ℚ) :
    ℕ → LocalState → Option LocalState
  | 0, st => some st
  | p + 1, st => (negIter P j alpha st).bind (negLoop P j alpha p)

/-- The body of the per-edge loop of `_nn_layout_optimize_single_epoch` for
one edge index `i` at epoch `n`: fire when
`epoch_of_next_sample[i] <= n`, run the attractive step, advance the
positive counter by `epochs_per_sample[i]`, compute
`n_neg_samples = int((n - epoch_of_next_negative_sample[i]) /
epochs_per_negative_sample[i])`, run that many negative iterations, and
advance the negative counter by `n_neg_samples *
epochs_per_negative_sample[i]`. -/
def processEdge (P : LocalParams) (alpha : ℚ) (n : ℕ) (st : LocalState) (i : ℕ) :
    Option LocalState :=
  if st.eons i ≤ (n : ℚ) then
    let j := P.head i
    let k := P.tail i
    let dist_squared := rdist P.dim (st.H j) (fun d => readT P st k d)
    let grad_coeff :=
      if dist_squared > 0 then
        -2 * P.a * P.b * P.fpow dist_squared (P.b - 1) /
          (P.a * P.fpow dist_squared P.b + 1)
      else 0
    let st := attrLoop P j k grad_coeff alpha P.dim 0 st
    let st := { st with eons := upd1 st.eons i (st.eons i + P.epochs_per_sample i) }
    let n_neg := pyInt (((n : ℚ) - st.eonns i) / P.epochs_per_negative_sample i)
    (negLoop P j alpha n_neg.toNat st).map fun st' =>
      { st' with
        eonns := upd1 st'.eonns i
          (st'.eonns i + (n_neg : ℚ) * P.epochs_per_negative_sample i) }
  else some st

/-- The per-edge loop of `_nn_layout_optimize_single_epoch` over edges
`i`, `i+1`, …, `i+rem-1` (the source iterates `numba.prange`; the
embedding is the sequential order). -/
def edgeLoop (P : LocalParams) (alpha : ℚ) (n : ℕ) :
    ℕ → ℕ → LocalState → Option LocalState
  | 0, _, st => some st
  | rem + 1, i, st => (processEdge P alpha n st i).bind (edgeLoop P alpha n rem (i + 1))

/-- The kernel `_nn_layout_optimize_single_epoch`: the per-edge loop over all edges. -/
def single_epoch (P : LocalParams) (alpha : ℚ) (n : ℕ) (st : LocalState) :
    Option LocalState :=
  edgeLoop P alpha n P.nEdges 0 st

/-- The epoch loop of `nn_layout_optimize`, running epochs `n`, `n+1`, …,
`n+rem-1`: each epoch calls the kernel with the current `alpha` and then
reassigns `alpha = initial_alpha * (1.0 - float(n) / float(n_epochs))`. -/
def runEpochs (P : LocalParams) (initial_alpha : ℚ) (n_epochs : ℕ) :
    ℕ → ℕ → ℚ → LocalState → Option LocalState
  | _, 0, _, st => some st
  | n, rem + 1, alpha, st =>
    (single_epoch P alpha n st).bind
      (runEpochs P initial_alpha n_epochs (n + 1) rem
        (initial_alpha * (1 - (n : ℚ) / (n_epochs : ℚ))))

/-- The initial mutable store of `nn_layout_optimize`: the two coordinate
arrays as passed, `epoch_of_next_negative_sample =
epochs_per_negative_sample.copy()`, `epoch_of_next_sample =
epochs_per_sample.copy()`, and the draw stream at position 0. -/
def initState (P : LocalParams) (headE tailE : Mat) : LocalState :=
  { H := headE, T := tailE, eons := P.epochs_per_sample,
    eonns := P.epochs_per_negative_sample, pos := 0, attrUpd := 0, negUpd := 0 }

/-- The kernel parameters actually used by `nn_layout_optimize`: the given
parameters with `epochs_per_negative_sample = epochs_per_sample /
negative_sample_rate` (numpy elementwise division).  The `move_other`
field of `P` stands for the source's
`head_embedding.shape[0] == tail_embedding.shape[0]` (the function
representation of arrays carries no shape, so the embedding takes the
Boolean that comparison produces). -/
def nnParams (P : LocalParams) (negative_sample_rate : ℚ) : LocalParams :=
  { P with epochs_per_negative_sample :=
      fun i => P.epochs_per_sample i / negative_sample_rate }

/-- The function `nn_layout_optimize`.  The result is `none` when a rejection loop
diverged, and otherwise `some (st, raised)` where `st` is the final
contents of the mutable store (in-place mutation is visible to the caller
even when an exception is raised) and `raised` records whether the final,
unconditional `plot_tmptmp(...)` call raised a `NameError`: the name
`plot_tmptmp` is bound only by the import inside the
`if verbose and n % 10 == 0:` block, i.e. exactly when `verbose` holds and
at least one epoch ran (the local variable `n` is likewise unbound when no
epoch ran). -/
def nn_layout_optimize (P : LocalParams) (negative_sample_rate : ℚ)
    (headE tailE : Mat) (n_epochs : ℕ) (initial_alpha : ℚ) (verbose : Bool) :
    Option (LocalState × Bool) :=
  let P' := nnParams P negative_sample_rate
  (runEpochs P' initial_alpha n_epochs 0 n_epochs initial_alpha
      (initState P' headE tailE)).map
    fun st => (st, !(verbose && decide (0 < n_epochs)))

/-! ## The global layout refiner (`optimize_global_layout`) -/

/-- Modelled from the spec: `adjacency_matrix` from `umato/utils.py` (not
under `src/`) returns the dense matrix of pairwise Euclidean distances
between the rows of `Z` (§4.2: "Compute pairwise squared distances D² over
all current positions"); the source squares it elementwise, so the
embedding renders `np.square(adjacency_matrix(Z))` directly as the matrix
of squared Euclidean distances. -/
def dSquaredMat (N dim : ℕ) (Z : Mat) : Mat :=
  fun i j => if i < N ∧ j < N then rdist dim (Z i) (Z j) else 0

/-- One iteration of the `for i in range(max_iter)` loop of
`optimize_global_layout`, translated statement by statement from the
source (the `verbose` cost computation and the `savefig` plotting do not
feed back into `Z` and are omitted from the denotation). -/
def globalStep (N dim : ℕ) (P : Mat) (a b alpha : ℚ) (fpow : ℚ → ℚ → ℚ)
    (Z : Mat) : Mat :=
  let d_squared := dSquaredMat N dim Z
  let z_diff : ℕ → ℕ → ℕ → ℚ := fun i j d => Z i d - Z j d
  let d_inverse : Mat := fun i j => (1 + a * fpow (d_squared i j) b)⁻¹
  let Q0 : Mat := fun i j => (1/1000 + d_squared i j)⁻¹
  let Q1 : Mat := fun i j => if i = j then 0 else Q0 i j
  let Q2 : Mat := fun i j => ∑ k ∈ Finset.range N, (1 - P i k) * Q1 k j
  let Q : Mat := fun i j => Q2 i j / ∑ k ∈ Finset.range N, Q2 i k
  let grad : Mat := fun i j =>
    2 * a * b * P i j * fpow (1/10^12 + d_squared i j) (b - 1) - 2 * b * Q i j
  let dZ : Mat := fun i d => ∑ j ∈ Finset.range N, grad i j * z_diff i j d * d_inverse i j
  fun i d => Z i d - alpha * dZ i d

/-- The function `optimize_global_layout`: `max_iter` iterations of
`globalStep` applied to `Z`. -/
def optimize_global_layout (N dim : ℕ) (P : Mat) (Z : Mat) (a b alpha : ℚ)
    (max_iter : ℕ) (fpow : ℚ → ℚ → ℚ) : Mat :=
  (globalStep N dim P a b alpha fpow)^[max_iter] Z

/-- The update of one Global Layout Refiner iteration as worded by the
specification (§4.2 / claim C8): `Q` is the elementwise reciprocal
`(0.001+D²)⁻¹` with its diagonal zeroed, left-multiplied by `(1−P)`, then
row-normalized to sum 1; the per-pair gradient is
`2·a·b·P·(1e-12+D²)^(b-1) − 2·b·Q`, multiplied elementwise by the
pairwise displacement tensor and by the kernel value `(1+a·D²^b)⁻¹`,
summed over the neighbor axis; and `Z` is decremented by `alpha` times
that per-point gradient. -/
def globalStepSpec (N dim : ℕ) (P : Mat) (a b alpha : ℚ) (fpow : ℚ → ℚ → ℚ)
    (Z : Mat) : Mat :=
  let D2 := dSquaredMat N dim Z
  let recip : Mat := fun i j => (1/1000 + D2 i j)⁻¹
  let diagZeroed : Mat := fun i j => if i = j then 0 else recip i j
  let leftMul : Mat := fun i j => ∑ k ∈ Finset.range N, (1 - P i k) * diagZeroed k j
  let rowSum : ℕ → ℚ := fun i => ∑ k ∈ Finset.range N, leftMul i k
  let Q : Mat := fun i j => leftMul i j / rowSum i
  let kernel : Mat := fun i j => (1 + a * fpow (D2 i j) b)⁻¹
  let pairGrad : Mat := fun i j =>
    2 * a * b * P i j * fpow (1/10^12 + D2 i j) (b - 1) - 2 * b * Q i j
  let pointGrad : Mat := fun i d =>
    ∑ j ∈ Finset.range N, pairGrad i j * (Z i d - Z j d) * kernel i j
  fun i d => Z i d - alpha * pointGrad i d

/-! ## Learning-rate schedules

The spec asserts (§4.1, claim C3) that epoch `n` uses
`alpha(n) = initial_alpha * (1 - n/N)`.  The source reassigns `alpha`
*after* the kernel call using the *current* epoch index, so the value the
kernel actually receives lags one epoch behind.  `runEpochsClaim` is the
epoch loop with the claimed schedule; `runEpochsAmended` is the epoch loop
with the schedule the threaded `alpha` actually follows. -/

/-- Modelled from the spec: the epoch loop of the claim, in which the
kernel call of epoch `n` receives `initial_alpha * (1 - n/N)`. -/
def runEpochsClaim (P : LocalParams) (initial_alpha : ℚ) (n_epochs : ℕ) :
    ℕ → ℕ → LocalState → Option LocalState
  | _, 0, st => some st
  | n, rem + 1, st =>
    (single_epoch P (initial_alpha * (1 - (n : ℚ) / (n_epochs : ℚ))) n st).bind
      (runEpochsClaim P initial_alpha n_epochs (n + 1) rem)

/-- The learning rate the source's threaded `alpha` variable holds when the
kernel is called for epoch `n`: `initial_alpha` for epoch 0, and
`initial_alpha * (1 - (n-1)/N)` for epoch `n ≥ 1`. -/
def alphaAmended (initial_alpha : ℚ) (n_epochs n : ℕ) : ℚ :=
  if n = 0 then initial_alpha
  else initial_alpha * (1 - ((n - 1 : ℕ) : ℚ) / (n_epochs : ℚ))

/-- The epoch loop with the per-epoch learning rate spelled out as
`alphaAmended` instead of threaded. -/
def runEpochsAmended (P : LocalParams) (initial_alpha : ℚ) (n_epochs : ℕ) :
    ℕ → ℕ → LocalState → Option LocalState
  | _, 0, st => some st
  | n, rem + 1, st =>
    (single_epoch P (alphaAmended initial_alpha n_epochs n) n st).bind
      (runEpochsAmended P initial_alpha n_epochs (n + 1) rem)

/-! ## Run prefixes and counter comparison (for the monotonicity claim) -/

/-- The state of a local-optimizer run after its first `m` epochs (the
epoch loop agrees step by step with the full run on a shared prefix). -/
def localPrefix (P : LocalParams) (negative_sample_rate : ℚ)
    (headE tailE : Mat) (initial_alpha : ℚ) (n_epochs m : ℕ) :
    Option LocalState :=
  runEpochs (nnParams P negative_sample_rate) initial_alpha n_epochs 0 m
    initial_alpha (initState (nnParams P negative_sample_rate) headE tailE)

/-- Comparison of the per-edge counters of two optional states at an edge
index: both `epoch_of_next_sample` and `epoch_of_next_negative_sample`
must be no smaller in the second state (trivially true when either run is
undefined). -/
def countersLE (o o' : Option LocalState) (i : ℕ) : Bool :=
  match o, o' with
  | some s, some s' => decide (s.eons i ≤ s'.eons i ∧ s.eonns i ≤ s'.eonns i)
  | _, _ => true

/-- The run invariant behind counter monotonicity: before epoch `n`, every
edge's positive counter is strictly positive (it starts at
`epochs_per_sample > 0` and only ever grows), and every edge's negative
counter is at most `max epochs_per_negative_sample n` (it starts at
`epochs_per_negative_sample` and is only ever advanced to at most the
current epoch index). -/
def CounterInv (P : LocalParams) (n : ℕ) (st : LocalState) : Prop :=
  ∀ i < P.nEdges,
    0 < st.eons i ∧ st.eonns i ≤ max (P.epochs_per_negative_sample i) (n : ℚ)

/-! ## Concrete inputs used by the counterexamples and witnesses -/

/-- Concrete local-optimizer parameters: one edge `0 → 1` between two
vertices, both primary hubs, one dimension, aliased coordinate arrays,
`epochs_per_sample = 1`, `a = b = gamma = 1`, a constant draw stream. -/
def exParams : LocalParams :=
  { head := fun _ => 0, tail := fun _ => 1, hub_info := fun _ => 1,
    n_vertices := 2, epochs_per_sample := fun _ => 1, a := 1, b := 1,
    gamma := 1, dim := 1, move_other := true,
    epochs_per_negative_sample := fun _ => 1, nEdges := 1, aliased := true,
    draws := fun _ => 0, fuel := 1, fpow := powTrunc }

/-- Concrete coordinates: point `i` sits at position `i` on a line. -/
def exHead : Mat := fun i _ => (i : ℚ)

/-- Concrete parameters for the self-draw counterexample: one edge
`0 → 1`, two *distinct* coordinate arrays of equal row count (so
`move_other` is true but nothing aliases), vertex 0 the only hub (so every
negative draw returns vertex 0, the head vertex), hub label 0 on the tail
vertex (so the attractive step moves nothing). -/
def exParamsSelf : LocalParams :=
  { head := fun _ => 0, tail := fun _ => 1,
    hub_info := fun v => if v = 0 then 1 else 0,
    n_vertices := 2, epochs_per_sample := fun _ => 1, a := 1, b := 1,
    gamma := 1, dim := 1, move_other := true,
    epochs_per_negative_sample := fun _ => 1, nEdges := 1, aliased := false,
    draws := fun _ => 0, fuel := 3, fpow := powTrunc }

/-- Head coordinates for the self-draw counterexample. -/
def exHeadSelf : Mat := fun i _ => if i = 0 then 0 else 10

/-- Tail coordinates for the self-draw counterexample: vertex 0 sits at 3,
so the head position (0) and the sampled self position differ. -/
def exTailSelf : Mat := fun i _ => if i = 0 then 3 else 4

/-- Concrete parameters with no hub-eligible vertex at all
(`hub_info = 0` everywhere): any negative-sampling draw must loop
forever. -/
def exParamsNoHub : LocalParams :=
  { head := fun _ => 0, tail := fun _ => 1, hub_info := fun _ => 0,
    n_vertices := 2, epochs_per_sample := fun _ => 1, a := 1, b := 1,
    gamma := 1, dim := 1, move_other := true,
    epochs_per_negative_sample := fun _ => 1, nEdges := 1, aliased := true,
    draws := fun _ => 0, fuel := 9, fpow := powTrunc }

/-- Concrete parameters for the §8 scenario: 4 points, the 3-edge ring
`0→1→2→3`, hub labels `[1,1,1,0]`, two dimensions, aliased arrays,
`epochs_per_sample = 1` for every edge. -/
def exParamsSquare : LocalParams :=
  { head := fun i => i, tail := fun i => i + 1,
    hub_info := fun v => if v < 3 then 1 else 0,
    n_vertices := 4, epochs_per_sample := fun _ => 1, a := 1, b := 1,
    gamma := 1, dim := 2, move_other := true,
    epochs_per_negative_sample := fun _ => 1, nEdges := 3, aliased := true,
    draws := fun _ => 0, fuel := 3, fpow := powTrunc }

/-- Coordinates of 4 points on the unit square:
`(0,0), (1,0), (1,1), (0,1)`. -/
def exSquare : Mat := fun i d =>
  if i = 0 then 0
  else if i = 1 then (if d = 0 then 1 else 0)
  else if i = 2 then 1
  else if d = 0 then 0 else 1

/-! ## Helper lemmas -/

attribute [local semireducible] Rat.add Rat.mul Rat.inv Rat.sub

theorem upd1_at (f : ℕ → ℚ) (i : ℕ) (v : ℚ) : upd1 f i v i = v := by
  simp [upd1]

theorem upd1_ne (f : ℕ → ℚ) {i r : ℕ} (v : ℚ) (h : r ≠ i) : upd1 f i v r = f r := by
  simp [upd1, h]

theorem upd2_at (f : Mat) (i j : ℕ) (v : ℚ) : upd2 f i j v i j = v := by
  simp [upd2]

theorem upd2_ne (f : Mat) {i j i' j' : ℕ} (v : ℚ) (h : ¬(i' = i ∧ j' = j)) :
    upd2 f i j v i' j' = f i' j' := by
  simp only [upd2, if_neg h]

theorem rdist_self (dim : ℕ) (x : ℕ → ℚ) : rdist dim x x = 0 := by
  simp [rdist]

theorem abs_clip_le {bound : ℚ} (v : ℚ) (h : 0 ≤ bound) : |clip v bound| ≤ bound := by
  unfold clip
  split
  · rw [abs_of_nonneg h]
  · split
    · rw [abs_neg, abs_of_nonneg h]
    · rw [abs_le]
      constructor <;> linarith

theorem pyInt_nonneg {q : ℚ} (h : 0 ≤ q) : 0 ≤ pyInt q := by
  rw [pyInt, if_pos h]
  exact Int.floor_nonneg.mpr h

theorem pyInt_cast_le {q : ℚ} (h : 0 ≤ q) : (pyInt q : ℚ) ≤ q := by
  rw [pyInt, if_pos h]
  exact Int.floor_le q

theorem pyInt_eq_zero {q : ℚ} (h1 : -1 < q) (h2 : q < 0) : pyInt q = 0 := by
  rw [pyInt, if_neg (not_le.mpr h2), neg_eq_zero, Int.floor_eq_zero_iff]
  constructor
  · linarith
  · linarith

/-! ### The loops do not touch the per-edge counters -/

theorem writeT_eons (P : LocalParams) (st : LocalState) (k d : ℕ) (v : ℚ) :
    (writeT P st k d v).eons = st.eons := by
  unfold writeT
  split <;> rfl

theorem writeT_eonns (P : LocalParams) (st : LocalState) (k d : ℕ) (v : ℚ) :
    (writeT P st k d v).eonns = st.eonns := by
  unfold writeT
  split <;> rfl

theorem attrBody_eons (P : LocalParams) (j k : ℕ) (gc al : ℚ) (d : ℕ)
    (st : LocalState) : (attrBody P j k gc al d st).eons = st.eons := by
  unfold attrBody
  split
  · rw [writeT_eons]
  · rfl

theorem attrBody_eonns (P : LocalParams) (j k : ℕ) (gc al : ℚ) (d : ℕ)
    (st : LocalState) : (attrBody P j k gc al d st).eonns = st.eonns := by
  unfold attrBody
  split
  · rw [writeT_eonns]
  · rfl

theorem attrLoop_eons (P : LocalParams) (j k : ℕ) (gc al : ℚ) :
    ∀ rem d st, (attrLoop P j k gc al rem d st).eons = st.eons := by
  intro rem
  induction rem with
  | zero => intro d st; rfl
  | succ r ih =>
    intro d st
    rw [attrLoop, ih, attrBody_eons]

theorem attrLoop_eonns (P : LocalParams) (j k : ℕ) (gc al : ℚ) :
    ∀ rem d st, (attrLoop P j k gc al rem d st).eonns = st.eonns := by
  intro rem
  induction rem with
  | zero => intro d st; rfl
  | succ r ih =>
    intro d st
    rw [attrLoop, ih, attrBody_eonns]

theorem negBody_eons (P : LocalParams) (j k : ℕ) (gc al : ℚ) (d : ℕ)
    (st : LocalState) : (negBody P j k gc al d st).eons = st.eons := rfl

theorem negBody_eonns (P : LocalParams) (j k : ℕ) (gc al : ℚ) (d : ℕ)
    (st : LocalState) : (negBody P j k gc al d st).eonns = st.eonns := rfl

theorem negWrite_eons (P : LocalParams) (j k : ℕ) (gc al : ℚ) :
    ∀ rem d st, (negWrite P j k gc al rem d st).eons = st.eons := by
  intro rem
  induction rem with
  | zero => intro d st; rfl
  | succ r ih => intro d st; rw [negWrite, ih, negBody_eons]

theorem negWrite_eonns (P : LocalParams) (j k : ℕ) (gc al : ℚ) :
    ∀ rem d st, (negWrite P j k gc al rem d st).eonns = st.eonns := by
  intro rem
  induction rem with
  | zero => intro d st; rfl
  | succ r ih => intro d st; rw [negWrite, ih, negBody_eonns]

theorem negApply_eons (P : LocalParams) (j : ℕ) (al : ℚ) (k : ℕ)
    (st : LocalState) : (negApply P j al k st).eons = st.eons := by
  simp only [negApply]
  split
  · exact negWrite_eons ..
  · split
    · rfl
    · exact negWrite_eons ..

theorem negApply_eonns (P : LocalParams) (j : ℕ) (al : ℚ) (k : ℕ)
    (st : LocalState) : (negApply P j al k st).eonns = st.eonns := by
  simp only [negApply]
  split
  · exact negWrite_eonns ..
  · split
    · rfl
    · exact negWrite_eonns ..

theorem negIter_counters (P : LocalParams) (j : ℕ) (al : ℚ) {st st' : LocalState}
    (h : negIter P j al st = some st') :
    st'.eons = st.eons ∧ st'.eonns = st.eonns := by
  unfold negIter at h
  rcases hr : rejectionSample P.hub_info P.n_vertices P.draws st.pos P.fuel with _ | ⟨k, pos'⟩
  · rw [hr] at h; exact absurd h (by simp)
  · rw [hr] at h
    cases h
    exact ⟨negApply_eons .., negApply_eonns ..⟩

theorem negLoop_counters (P : LocalParams) (j : ℕ) (al : ℚ) :
    ∀ p {st st' : LocalState}, negLoop P j al p st = some st' →
      st'.eons = st.eons ∧ st'.eonns = st.eonns := by
  intro p
  induction p with
  | zero => intro st st' h; cases h; exact ⟨rfl, rfl⟩
  | succ q ih =>
    intro st st' h
    rw [negLoop] at h
    rcases Option.bind_eq_some.mp h with ⟨stm, h1, h2⟩
    rcases negIter_counters P j al h1 with ⟨e1, e2⟩
    rcases ih h2 with ⟨f1, f2⟩
    exact ⟨f1.trans e1, f2.trans e2⟩

/-! ### Per-edge counter analysis -/

theorem processEdge_skip {P : LocalParams} {alpha : ℚ} {n i : ℕ} {st : LocalState}
    (h : ¬ st.eons i ≤ (n : ℚ)) : processEdge P alpha n st i = some st := by
  rw [processEdge, if_neg h]

theorem processEdge_counters {P : LocalParams} {alpha : ℚ} {n i : ℕ}
    {st st' : LocalState}
    (heps : 0 < P.epochs_per_sample i)
    (hepn : 0 < P.epochs_per_negative_sample i)
    (hpos : 0 < st.eons i)
    (hbnd : st.eonns i ≤ max (P.epochs_per_negative_sample i) (n : ℚ))
    (h : processEdge P alpha n st i = some st') :
    (∀ r, r ≠ i → st'.eons r = st.eons r ∧ st'.eonns r = st.eonns r) ∧
      st.eons i ≤ st'.eons i ∧ st.eonns i ≤ st'.eonns i ∧
      0 < st'.eons i ∧
      st'.eonns i ≤ max (P.epochs_per_negative_sample i) (n : ℚ) := by
  by_cases hfire : st.eons i ≤ (n : ℚ)
  · rw [processEdge, if_pos hfire] at h
    simp only at h
    rcases Option.map_eq_some'.mp h with ⟨sC, hC, hst'⟩
    set sA := attrLoop P (P.head i) (P.tail i) _ alpha P.dim 0 st with hsA
    have hAo : sA.eons = st.eons := attrLoop_eons ..
    have hAn : sA.eonns = st.eonns := attrLoop_eonns ..
    rcases negLoop_counters P (P.head i) alpha _ hC with ⟨hCo, hCn⟩
    -- the positive counter after the update, and the negative counter input
    have hCo' : sC.eons = upd1 sA.eons i (sA.eons i + P.epochs_per_sample i) := hCo
    have hCn' : sC.eonns = sA.eonns := hCn
    subst hst'
    set E := P.epochs_per_negative_sample i with hE
    set q := ((n : ℚ) - st.eonns i) / E with hq
    have hnn : pyInt (((n : ℚ) - sA.eonns i) / E) = pyInt q := by rw [hAn]
    have h1n : (1 : ℚ) ≤ (n : ℚ) := by
      have : (0 : ℚ) < (n : ℚ) := lt_of_lt_of_le hpos hfire
      exact_mod_cast Nat.one_le_cast.mpr (Nat.pos_of_ne_zero (by
        intro h0; rw [h0] at this; exact absurd this (by norm_num)))
    have key : st.eonns i ≤ st.eonns i + (pyInt q : ℚ) * E ∧
        st.eonns i + (pyInt q : ℚ) * E ≤ max E (n : ℚ) := by
      by_cases hc : st.eonns i ≤ (n : ℚ)
      · have hq0 : 0 ≤ q := div_nonneg (by linarith) hepn.le
        have hm0 : (0 : ℚ) ≤ (pyInt q : ℚ) := by exact_mod_cast pyInt_nonneg hq0
        have hmq : (pyInt q : ℚ) ≤ q := pyInt_cast_le hq0
        constructor
        · nlinarith
        · have hqE : q * E = (n : ℚ) - st.eonns i := by
            rw [hq]; field_simp
          have : (pyInt q : ℚ) * E ≤ q * E :=
            mul_le_mul_of_nonneg_right hmq hepn.le
          have : st.eonns i + (pyInt q : ℚ) * E ≤ (n : ℚ) := by
            rw [hqE] at this; linarith
          exact this.trans (le_max_right _ _)
      · have hcn : (n : ℚ) < st.eonns i := not_le.mp hc
        have hcE : st.eonns i ≤ E := by
          rcases le_max_iff.mp hbnd with h' | h'
          · exact h'
          · exact absurd h' hc
        have hql : -1 < q := by
          rw [hq, lt_div_iff₀ hepn]
          linarith
        have hqn : q < 0 := div_neg_of_neg_of_pos (by linarith) hepn
        rw [pyInt_eq_zero hql hqn]
        simp [hbnd]
    refine ⟨?_, ?_, ?_, ?_, ?_⟩
    · intro r hr
      constructor
      · simp only [hCo', hAo, upd1_ne _ _ hr]
      · simp only [upd1_ne _ _ hr, hCn', hAn]
    · simp only [hCo', hAo, upd1_at]
      linarith
    · simp only [upd1_at, hCn', hAn, hnn]
      exact key.1
    · simp only [hCo', hAo, upd1_at]
      linarith
    · simp only [upd1_at, hCn', hAn, hnn]
      exact key.2
  · rw [processEdge_skip hfire] at h
    cases h
    exact ⟨fun r _ => ⟨rfl, rfl⟩, le_rfl, le_rfl, hpos, hbnd⟩

theorem edgeLoop_counters {P : LocalParams} {alpha : ℚ} {n : ℕ}
    (heps : ∀ r < P.nEdges, 0 < P.epochs_per_sample r)
    (hepn : ∀ r < P.nEdges, 0 < P.epochs_per_negative_sample r) :
    ∀ rem i0 {st st' : LocalState}, i0 + rem ≤ P.nEdges → CounterInv P n st →
      edgeLoop P alpha n rem i0 st = some st' →
      (∀ r, st.eons r ≤ st'.eons r ∧ st.eonns r ≤ st'.eonns r) ∧
        CounterInv P n st' := by
  intro rem
  induction rem with
  | zero =>
    intro i0 st st' _ hInv h
    cases h
    exact ⟨fun r => ⟨le_rfl, le_rfl⟩, hInv⟩
  | succ m ih =>
    intro i0 st st' hle hInv h
    rw [edgeLoop] at h
    rcases Option.bind_eq_some.mp h with ⟨stm, h1, h2⟩
    have hi0 : i0 < P.nEdges := by omega
    rcases hInv i0 hi0 with ⟨hpos, hbnd⟩
    rcases processEdge_counters (heps i0 hi0) (hepn i0 hi0) hpos hbnd h1 with
      ⟨hother, ho1, ho2, ho3, ho4⟩
    have hInv' : CounterInv P n stm := by
      intro r hr
      by_cases hri : r = i0
      · subst hri; exact ⟨ho3, ho4⟩
      · rcases hother r hri with ⟨e1, e2⟩
        rw [e1, e2]
        exact hInv r hr
    rcases ih (i0 + 1) (by omega) hInv' h2 with ⟨hmono, hInv''⟩
    refine ⟨fun r => ?_, hInv''⟩
    rcases hmono r with ⟨m1, m2⟩
    by_cases hri : r = i0
    · subst hri
      exact ⟨ho1.trans m1, ho2.trans m2⟩
    · rcases hother r hri with ⟨e1, e2⟩
      exact ⟨e1.ge.trans m1, e2.ge.trans m2⟩

theorem single_epoch_counters {P : LocalParams} {alpha : ℚ} {n : ℕ}
    {st st' : LocalState}
    (heps : ∀ r < P.nEdges, 0 < P.epochs_per_sample r)
    (hepn : ∀ r < P.nEdges, 0 < P.epochs_per_negative_sample r)
    (hInv : CounterInv P n st) (h : single_epoch P alpha n st = some st') :
    (∀ r, st.eons r ≤ st'.eons r ∧ st.eonns r ≤ st'.eonns r) ∧
      CounterInv P (n + 1) st' := by
  rcases edgeLoop_counters heps hepn P.nEdges 0 (by omega) hInv h with ⟨hmono, hInv'⟩
  refine ⟨hmono, fun r hr => ⟨(hInv' r hr).1, (hInv' r hr).2.trans ?_⟩⟩
  exact max_le_max le_rfl (by exact_mod_cast Nat.le_succ n)

/-! ### The threaded learning rate follows the one-epoch-lagged schedule -/

theorem runEpochs_eq_amended (P : LocalParams) (iA : ℚ) (N : ℕ) :
    ∀ rem n st, runEpochs P iA N n rem (alphaAmended iA N n) st =
      runEpochsAmended P iA N n rem st := by
  intro rem
  induction rem with
  | zero => intro n st; rfl
  | succ r ih =>
    intro n st
    rw [runEpochs, runEpochsAmended]
    have ha : iA * (1 - (n : ℚ) / (N : ℚ)) = alphaAmended iA N (n + 1) := by
      simp [alphaAmended]
    rw [ha]
    exact congrArg _ (funext fun st' => ih (n + 1) st')

theorem runEpochsAmended_snoc (P : LocalParams) (iA : ℚ) (N : ℕ) :
    ∀ rem n st, runEpochsAmended P iA N n (rem + 1) st =
      (runEpochsAmended P iA N n rem st).bind
        (single_epoch P (alphaAmended iA N (n + rem)) (n + rem)) := by
  intro rem
  induction rem with
  | zero =>
    intro n st
    show (single_epoch P (alphaAmended iA N n) n st).bind (fun s => some s) =
      (some st).bind (single_epoch P (alphaAmended iA N (n + 0)) (n + 0))
    rw [Option.some_bind, Nat.add_zero]
    rcases single_epoch P (alphaAmended iA N n) n st with _ | s <;> rfl
  | succ r ih =>
    intro n st
    have hfun : runEpochsAmended P iA N (n + 1) (r + 1) = fun s =>
        (runEpochsAmended P iA N (n + 1) r s).bind
          (single_epoch P (alphaAmended iA N (n + 1 + r)) (n + 1 + r)) :=
      funext fun s => ih (n + 1) s
    show (single_epoch P (alphaAmended iA N n) n st).bind
        (runEpochsAmended P iA N (n + 1) (r + 1)) = _
    rw [hfun, show n + (r + 1) = n + 1 + r from by omega]
    conv_rhs => rw [runEpochsAmended]
    rw [Option.bind_assoc]

theorem localPrefix_eq_amended (P : LocalParams) (rate : ℚ) (headE tailE : Mat)
    (iA : ℚ) (N m : ℕ) :
    localPrefix P rate headE tailE iA N m =
      runEpochsAmended (nnParams P rate) iA N 0 m
        (initState (nnParams P rate) headE tailE) :=
  runEpochs_eq_amended (nnParams P rate) iA N m 0
    (initState (nnParams P rate) headE tailE)

theorem localPrefix_inv {P : LocalParams} {rate : ℚ} {headE tailE : Mat}
    {iA : ℚ} {N : ℕ}
    (heps : ∀ r < P.nEdges, 0 < P.epochs_per_sample r) (hrate : 0 < rate) :
    ∀ m {st : LocalState}, localPrefix P rate headE tailE iA N m = some st →
      CounterInv (nnParams P rate) m st := by
  have hepn : ∀ r < (nnParams P rate).nEdges,
      0 < (nnParams P rate).epochs_per_negative_sample r := by
    intro r hr
    exact div_pos (heps r hr) hrate
  intro m
  induction m with
  | zero =>
    intro st h
    rw [localPrefix_eq_amended] at h
    cases h
    intro r hr
    refine ⟨heps r hr, ?_⟩
    exact le_max_left _ _
  | succ k ih =>
    intro st h
    rw [localPrefix_eq_amended, runEpochsAmended_snoc] at h
    rcases Option.bind_eq_some.mp h with ⟨stk, h1, h2⟩
    rw [← localPrefix_eq_amended] at h1
    rw [Nat.zero_add] at h2
    have hInv := ih h1
    exact (single_epoch_counters (P := nnParams P rate) heps hepn hInv h2).2

/-! ### Cell-level characterization of the attractive loop -/

theorem writeT_H_ne (P : LocalParams) (st : LocalState) {j' d' : ℕ} (k d : ℕ)
    (v : ℚ) (h : ¬(j' = k ∧ d' = d)) : (writeT P st k d v).H j' d' = st.H j' d' := by
  unfold writeT
  split
  · exact upd2_ne _ _ h
  · rfl

theorem writeT_T_ne (P : LocalParams) (st : LocalState) {j' d' : ℕ} (k d : ℕ)
    (v : ℚ) (h : ¬(j' = k ∧ d' = d)) : (writeT P st k d v).T j' d' = st.T j' d' := by
  unfold writeT
  split
  · rfl
  · exact upd2_ne _ _ h

theorem attrBody_H_ne (P : LocalParams) {j k : ℕ} (gc al : ℚ) {d : ℕ}
    (st : LocalState) {j' d' : ℕ} (hj : ¬(j' = j ∧ d' = d)) (hk : ¬(j' = k ∧ d' = d)) :
    (attrBody P j k gc al d st).H j' d' = st.H j' d' := by
  unfold attrBody
  split
  · rw [writeT_H_ne _ _ _ _ _ hk]
    exact upd2_ne _ _ hj
  · exact upd2_ne _ _ hj

theorem attrBody_T_ne (P : LocalParams) {j k : ℕ} (gc al : ℚ) {d : ℕ}
    (st : LocalState) {j' d' : ℕ} (hk : ¬(j' = k ∧ d' = d)) :
    (attrBody P j k gc al d st).T j' d' = st.T j' d' := by
  unfold attrBody
  split
  · rw [writeT_T_ne _ _ _ _ _ hk]
  · rfl

theorem attrLoop_frozen (P : LocalParams) (j k : ℕ) (gc al : ℚ) :
    ∀ rem d0 st j' d', d' < d0 →
      (attrLoop P j k gc al rem d0 st).H j' d' = st.H j' d' ∧
      (attrLoop P j k gc al rem d0 st).T j' d' = st.T j' d' := by
  intro rem
  induction rem with
  | zero => intro d0 st j' d' _; exact ⟨rfl, rfl⟩
  | succ r ih =>
    intro d0 st j' d' hd
    rw [attrLoop]
    obtain ⟨h1, h2⟩ := ih (d0 + 1) (attrBody P j k gc al d0 st) j' d' (by omega)
    have hj : ¬(j' = j ∧ d' = d0) := by rintro ⟨_, h⟩; omega
    have hk : ¬(j' = k ∧ d' = d0) := by rintro ⟨_, h⟩; omega
    exact ⟨h1.trans (attrBody_H_ne P gc al st hj hk),
      h2.trans (attrBody_T_ne P gc al st hk)⟩

theorem readT_not_aliased {P : LocalParams} (hal : P.aliased = false)
    (st : LocalState) (k d : ℕ) : readT P st k d = st.T k d := by
  simp [readT, hal]

theorem writeT_H_not_aliased {P : LocalParams} (hal : P.aliased = false)
    (st : LocalState) (k d : ℕ) (v : ℚ) : (writeT P st k d v).H = st.H := by
  simp [writeT, hal]

theorem writeT_T_not_aliased {P : LocalParams} (hal : P.aliased = false)
    (st : LocalState) (k d : ℕ) (v : ℚ) : (writeT P st k d v).T = upd2 st.T k d v := by
  simp [writeT, hal]

theorem attrBody_H_at {P : LocalParams} (hal : P.aliased = false) (j k : ℕ)
    (gc al : ℚ) (d : ℕ) (st : LocalState) :
    (attrBody P j k gc al d st).H j d =
      st.H j d + attrGradD gc (st.H j d) (st.T k d) * al * gradCurrentOf (P.hub_info k) := by
  unfold attrBody
  rw [readT_not_aliased hal]
  split
  · rw [writeT_H_not_aliased hal]
    exact upd2_at ..
  · exact upd2_at ..

theorem attrBody_T_at_mo {P : LocalParams} (hal : P.aliased = false)
    (hmo : P.move_other = true) (j k : ℕ) (gc al : ℚ) (d : ℕ) (st : LocalState) :
    (attrBody P j k gc al d st).T k d =
      st.T k d + -(attrGradD gc (st.H j d) (st.T k d)) * al * gradOtherOf (P.hub_info k) := by
  unfold attrBody
  rw [readT_not_aliased hal, hmo]
  simp only [if_true]
  rw [writeT_T_not_aliased hal, upd2_at, readT_not_aliased hal]

theorem attrBody_T_const {P : LocalParams} (hmo : P.move_other = false)
    (j k : ℕ) (gc al : ℚ) (d : ℕ) (st : LocalState) :
    (attrBody P j k gc al d st).T = st.T := by
  unfold attrBody
  rw [hmo]
  rfl

theorem attrLoop_H_at {P : LocalParams} (hal : P.aliased = false) (j k : ℕ)
    (gc al : ℚ) :
    ∀ rem d0 st d, d0 ≤ d → d < d0 + rem →
      (attrLoop P j k gc al rem d0 st).H j d =
        st.H j d + attrGradD gc (st.H j d) (st.T k d) * al *
          gradCurrentOf (P.hub_info k) := by
  intro rem
  induction rem with
  | zero => intro d0 st d h1 h2; omega
  | succ r ih =>
    intro d0 st d h1 h2
    rw [attrLoop]
    by_cases hd : d = d0
    · subst hd
      obtain ⟨hH, _⟩ :=
        attrLoop_frozen P j k gc al r (d + 1) (attrBody P j k gc al d st) j d (by omega)
      rw [hH, attrBody_H_at hal]
    · have hne1 : ¬(j = j ∧ d = d0) := by rintro ⟨_, h⟩; exact hd h
      have hne2 : ¬(j = k ∧ d = d0) := by rintro ⟨_, h⟩; exact hd h
      have hne3 : ¬(k = k ∧ d = d0) := by rintro ⟨_, h⟩; exact hd h
      rw [ih (d0 + 1) (attrBody P j k gc al d0 st) d (by omega) (by omega),
        attrBody_H_ne P gc al st hne1 hne2, attrBody_T_ne P gc al st hne3]

theorem attrLoop_T_at_mo {P : LocalParams} (hal : P.aliased = false)
    (hmo : P.move_other = true) (j k : ℕ) (gc al : ℚ) :
    ∀ rem d0 st d, d0 ≤ d → d < d0 + rem →
      (attrLoop P j k gc al rem d0 st).T k d =
        st.T k d + -(attrGradD gc (st.H j d) (st.T k d)) * al *
          gradOtherOf (P.hub_info k) := by
  intro rem
  induction rem with
  | zero => intro d0 st d h1 h2; omega
  | succ r ih =>
    intro d0 st d h1 h2
    rw [attrLoop]
    by_cases hd : d = d0
    · subst hd
      obtain ⟨_, hT⟩ :=
        attrLoop_frozen P j k gc al r (d + 1) (attrBody P j k gc al d st) k d (by omega)
      rw [hT, attrBody_T_at_mo hal hmo]
    · have hne1 : ¬(j = j ∧ d = d0) := by rintro ⟨_, h⟩; exact hd h
      have hne2 : ¬(j = k ∧ d = d0) := by rintro ⟨_, h⟩; exact hd h
      have hne3 : ¬(k = k ∧ d = d0) := by rintro ⟨_, h⟩; exact hd h
      rw [ih (d0 + 1) (attrBody P j k gc al d0 st) d (by omega) (by omega),
        attrBody_H_ne P gc al st hne1 hne2, attrBody_T_ne P gc al st hne3]

theorem attrLoop_T_const {P : LocalParams} (hmo : P.move_other = false)
    (j k : ℕ) (gc al : ℚ) :
    ∀ rem d0 st, (attrLoop P j k gc al rem d0 st).T = st.T := by
  intro rem
  induction rem with
  | zero => intro d0 st; rfl
  | succ r ih =>
    intro d0 st
    rw [attrLoop, ih, attrBody_T_const hmo]

theorem rejectionSample_none (hub : ℕ → ℤ) (nv : ℕ) (draws : ℕ → ℕ)
    (h : ∀ v, hub v ≤ 0) : ∀ fuel pos, rejectionSample hub nv draws pos fuel = none := by
  intro fuel
  induction fuel with
  | zero => intro pos; rfl
  | succ f ih =>
    intro pos
    rw [rejectionSample]
    rw [if_neg (not_lt.mpr (h (draws pos % nv)))]
    exact ih (pos + 1)

theorem negApply_self_aliased {P : LocalParams} (hal : P.aliased = true)
    (j : ℕ) (alpha : ℚ) (st : LocalState) : negApply P j alpha j st = st := by
  unfold negApply
  have hT : (fun d => readT P st j d) = st.H j := funext fun d => by simp [readT, hal]
  rw [hT, rdist_self]
  rw [if_neg (lt_irrefl 0), if_pos rfl]

/-! ## The claims -/

/-- C1: the claim states that with `n_epochs = 0` the local optimizer and
with `max_iter = 0` the global refiner both return their input coordinates
unchanged and return normally.  The global half holds: zero iterations of
`optimize_global_layout` return `Z` itself.  The local half is a code bug:
the coordinates are indeed untouched (the result store is exactly the
initial store), but `nn_layout_optimize` then reaches its final,
unconditional `plot_tmptmp(...)` call with the name `plot_tmptmp` (and the
loop variable `n`) unbound, so it raises a `NameError` (the `true` flag
below) instead of returning normally. -/
theorem C1_zero_iterations :
    (∀ N dim P Z a b alpha max_iter fpow, max_iter = 0 →
      optimize_global_layout N dim P Z a b alpha max_iter fpow = Z) ∧
    ∀ P rate headE tailE iA v,
      nn_layout_optimize P rate headE tailE 0 iA v =
        some (initState (nnParams P rate) headE tailE, true) := by
  constructor
  · intro N dim P Z a b alpha max_iter fpow h
    subst h
    rfl
  · intro P rate headE tailE iA v
    simp [nn_layout_optimize, runEpochs]

/-- Witness for C1: the global refiner applied to a concrete 2-point
configuration with `max_iter = 0` returns it unchanged. -/
theorem C1_zero_iterations_witness :
    optimize_global_layout 2 1 exHead exHead 1 1 (1/100) 0 powTrunc = exHead :=
  C1_zero_iterations.1 2 1 exHead exHead 1 1 (1/100) 0 powTrunc rfl

/-- C2: whenever the name `plot_tmptmp` was never bound (`verbose` false,
or `n_epochs = 0` so the loop body never ran), `nn_layout_optimize` raises
a `NameError` at its final unconditional `plot_tmptmp` call instead of
returning `head_embedding`; when `n_epochs > 0` the per-epoch coordinate
updates have all been applied in place before the abort — the store paired
with the raised flag is exactly the state produced by the full epoch
loop. -/
theorem C2_nameerror_abort (P : LocalParams) (rate : ℚ) (headE tailE : Mat)
    (n_epochs : ℕ) (iA : ℚ) (verbose : Bool)
    (h : verbose = false ∨ n_epochs = 0) :
    nn_layout_optimize P rate headE tailE n_epochs iA verbose =
      (runEpochs (nnParams P rate) iA n_epochs 0 n_epochs iA
        (initState (nnParams P rate) headE tailE)).map (fun st => (st, true)) := by
  unfold nn_layout_optimize
  rcases h with h | h
  · subst h
    simp
  · subst h
    simp

/-- Witness for C2: a concrete non-verbose 2-epoch run ends in the raised
state paired with the epoch loop's final store. -/
theorem C2_nameerror_abort_witness :
    nn_layout_optimize exParams 1 exHead exHead 2 1 false =
      (runEpochs (nnParams exParams 1) 1 2 0 2 1
        (initState (nnParams exParams 1) exHead exHead)).map (fun st => (st, true)) :=
  C2_nameerror_abort exParams 1 exHead exHead 2 1 false (Or.inl rfl)

/-- C3 counterexample: the claim states that every displacement of epoch
`n` is scaled by `alpha(n) = initial_alpha * (1 - n/N)`.  On a concrete
2-point, 2-epoch run whose single edge fires at epoch 1, the source run
moves the head coordinate by `1/100` (epoch 1 still uses
`alpha = initial_alpha = 1`, because the source updates `alpha` *after*
the kernel call using the *current* epoch index), whereas the loop with
the claimed schedule (`runEpochsClaim`, epoch 1 scaled by `1/2`) moves it
by `1/200`. -/
theorem C3_alpha_schedule_counterexample :
    (nn_layout_optimize exParams 1 exHead exHead 2 1 false).map
        (fun r => r.1.H 0 0) = some (1/100) ∧
    (runEpochsClaim (nnParams exParams 1) 1 2 0 2
        (initState (nnParams exParams 1) exHead exHead)).map
        (fun st => st.H 0 0) = some (1/200) ∧
    ((1 : ℚ)/100) ≠ 1/200 := by
  refine ⟨by decide, by decide, by decide⟩

/-- C3 amended: the kernel call of epoch 0 receives `initial_alpha`, and
the kernel call of epoch `n ≥ 1` receives
`initial_alpha * (1 - (n-1)/N)` — the claimed linear decay lagged by one
epoch.  Every local-optimizer run equals the loop that passes exactly this
schedule (`alphaAmended`) to each epoch. -/
theorem C3_alpha_schedule_amended (P : LocalParams) (rate : ℚ)
    (headE tailE : Mat) (n_epochs : ℕ) (iA : ℚ) (verbose : Bool) :
    nn_layout_optimize P rate headE tailE n_epochs iA verbose =
      (runEpochsAmended (nnParams P rate) iA n_epochs 0 n_epochs
        (initState (nnParams P rate) headE tailE)).map
        (fun st => (st, !(verbose && decide (0 < n_epochs)))) := by
  simp only [nn_layout_optimize]
  rw [← runEpochs_eq_amended (nnParams P rate) iA n_epochs n_epochs 0]
  rfl

/-- C4: for every edge and every epoch, `epoch_of_next_sample[i]` and
`epoch_of_next_negative_sample[i]` are non-decreasing over the whole run,
for all inputs with positive `epochs_per_sample` and positive
`negative_sample_rate`.  Each counter is updated at most once per epoch
(when its edge fires), so comparing consecutive epoch-prefix states of the
run compares consecutive counter updates. -/
theorem C4_counters_monotone (P : LocalParams) (rate : ℚ) (headE tailE : Mat)
    (iA : ℚ) (n_epochs : ℕ)
    (heps : ∀ r < P.nEdges, 0 < P.epochs_per_sample r) (hrate : 0 < rate) :
    ∀ m i, countersLE (localPrefix P rate headE tailE iA n_epochs m)
      (localPrefix P rate headE tailE iA n_epochs (m + 1)) i = true := by
  intro m i
  have hepn : ∀ r < (nnParams P rate).nEdges,
      0 < (nnParams P rate).epochs_per_negative_sample r :=
    fun r hr => div_pos (heps r hr) hrate
  have hsnoc : localPrefix P rate headE tailE iA n_epochs (m + 1) =
      (localPrefix P rate headE tailE iA n_epochs m).bind
        (single_epoch (nnParams P rate) (alphaAmended iA n_epochs m) m) := by
    rw [localPrefix_eq_amended, localPrefix_eq_amended, runEpochsAmended_snoc,
      Nat.zero_add]
  rcases hpm : localPrefix P rate headE tailE iA n_epochs m with _ | s
  · have h1 : localPrefix P rate headE tailE iA n_epochs (m + 1) = none := by
      rw [hsnoc, hpm]
      rfl
    rw [h1]
    rfl
  · rcases hp1 : localPrefix P rate headE tailE iA n_epochs (m + 1) with _ | s'
    · rfl
    · have hInv : CounterInv (nnParams P rate) m s := localPrefix_inv heps hrate m hpm
      rw [hsnoc, hpm, Option.some_bind] at hp1
      obtain ⟨hmono, _⟩ :=
        single_epoch_counters (P := nnParams P rate) heps hepn hInv hp1
      show decide (s.eons i ≤ s'.eons i ∧ s.eonns i ≤ s'.eonns i) = true
      exact decide_eq_true ⟨(hmono i).1, (hmono i).2⟩

/-- Witness for C4: the concrete run `exParams` (one edge with
`epochs_per_sample = 1 > 0`, `negative_sample_rate = 1 > 0`) has
non-decreasing counters from the 1-epoch prefix to the 2-epoch prefix. -/
theorem C4_counters_monotone_witness :
    countersLE (localPrefix exParams 1 exHead exHead 1 2 1)
      (localPrefix exParams 1 exHead exHead 1 2 2) 0 = true :=
  C4_counters_monotone exParams 1 exHead exHead 1 2 (by decide) (by decide) 1 0

/-- C5: the spec requires the optimizer to detect at entry that no vertex
has hub label `> 0` and fail fast with a configuration error.  The code
performs no such validation: with an all-zero `hub_info` the run proceeds
normally through every epoch that needs no negative sample (second
conjunct: the 2-epoch prefix completes), and the first time a negative
sample is needed the rejection loop spins forever — `rejectionSample`
returns `none` at every fuel whenever no vertex has positive hub label
(first conjunct), so the 3-epoch run diverges (third conjunct) rather than
failing fast at entry. -/
theorem C5_no_hub_validation (hub : ℕ → ℤ) (nv : ℕ) (draws : ℕ → ℕ)
    (pos fuel : ℕ) (h : ∀ v, hub v ≤ 0) :
    rejectionSample hub nv draws pos fuel = none ∧
    (localPrefix exParamsNoHub 1 exHead exHead 1 3 2).isSome = true ∧
    nn_layout_optimize exParamsNoHub 1 exHead exHead 3 1 false = none :=
  ⟨rejectionSample_none hub nv draws h fuel pos, by decide, by rfl⟩

/-- Witness for C5: the all-zero hub labelling of `exParamsNoHub` makes the
rejection loop return `none` (at fuel 5, position 0), and the concrete
3-epoch run diverges. -/
theorem C5_no_hub_validation_witness :
    rejectionSample (fun _ => 0) 2 (fun _ => 0) 0 5 = none ∧
    (localPrefix exParamsNoHub 1 exHead exHead 1 3 2).isSome = true ∧
    nn_layout_optimize exParamsNoHub 1 exHead exHead 3 1 false = none :=
  C5_no_hub_validation (fun _ => 0) 2 (fun _ => 0) 0 5 (fun _ => le_refl 0)

/-- C6 counterexample: the claim states that a negative-sampling draw equal
to the head vertex is always skipped with no coordinate update, regardless
of whether `head_embedding` and `tail_embedding` are the same array.  In
`exParamsSelf` the arrays are distinct, vertex 0 is the only hub-eligible
vertex and is the head vertex of the single edge (first two conjuncts: the
rejection sample accepts vertex `0 = head 0`), and the run performs
exactly one negative draw (final `pos = 1`), yet the head coordinate moves
from `0` to `-2/45005`: the source skips a self-draw only when the squared
distance is zero, and here the head position (0) and the tail-array
position of vertex 0 (3) differ. -/
theorem C6_self_draw_counterexample :
    rejectionSample exParamsSelf.hub_info exParamsSelf.n_vertices
        exParamsSelf.draws 0 exParamsSelf.fuel = some (0, 1) ∧
    exParamsSelf.head 0 = 0 ∧
    exHeadSelf 0 0 = 0 ∧
    (nn_layout_optimize exParamsSelf 1 exHeadSelf exTailSelf 3 1 false).map
        (fun r => (r.1.H 0 0, r.1.pos)) = some (-2/45005, 1) := by
  refine ⟨by decide, rfl, rfl, by decide⟩

/-- C6 amended: a self-draw is skipped entirely (no coordinate update, only
the draw position advances) exactly in the situation the source's
`dist_squared = 0` test captures; in particular whenever `head_embedding`
and `tail_embedding` alias, every draw equal to the head vertex reads the
head's own row, has squared distance zero, and is skipped. -/
theorem C6_self_draw_amended (P : LocalParams) (j : ℕ) (alpha : ℚ)
    (st : LocalState) (pos' : ℕ) (hal : P.aliased = true)
    (hdraw : rejectionSample P.hub_info P.n_vertices P.draws st.pos P.fuel =
      some (j, pos')) :
    negIter P j alpha st = some { st with pos := pos' } := by
  unfold negIter
  rw [hdraw]
  show some (negApply P j alpha j { st with pos := pos' }) = _
  rw [negApply_self_aliased hal]

/-- Witness for C6 amended: in the aliased configuration `exParams`, the
first rejection draw accepts vertex `0` (the head vertex of edge 0) at
position 1, and the negative iteration only advances the draw position. -/
theorem C6_self_draw_amended_witness :
    negIter exParams 0 1 (initState exParams exHead exHead) =
      some { initState exParams exHead exHead with pos := 1 } :=
  C6_self_draw_amended exParams 0 1 (initState exParams exHead exHead) 1 rfl
    (by decide)

/-- C7: in the attractive step, the per-endpoint scale factor is selected
by the hub label of the edge's tail vertex `k`: label 1 scales both the
head and the tail update by `0.01`; label 2 scales the head update by
`0.01` and the tail update by `0.001`; label 0 scales both by 0, so
neither endpoint's coordinates change.  The head endpoint always receives
its (possibly zero) update, while the tail endpoint is updated only when
`move_other` is true (last conjunct: with `move_other` false the tail
array is untouched).  Stated for distinct (non-aliased) arrays so that the
two endpoints' cells are independent. -/
theorem C7_hub_scale_factors (P : LocalParams) (j k : ℕ) (gc al : ℚ)
    (st : LocalState) (d : ℕ) (hal : P.aliased = false) (hd : d < P.dim) :
    (P.hub_info k = 1 →
      (attrLoop P j k gc al P.dim 0 st).H j d =
        st.H j d + attrGradD gc (st.H j d) (st.T k d) * al * (1/100) ∧
      (P.move_other = true →
        (attrLoop P j k gc al P.dim 0 st).T k d =
          st.T k d - attrGradD gc (st.H j d) (st.T k d) * al * (1/100))) ∧
    (P.hub_info k = 2 →
      (attrLoop P j k gc al P.dim 0 st).H j d =
        st.H j d + attrGradD gc (st.H j d) (st.T k d) * al * (1/100) ∧
      (P.move_other = true →
        (attrLoop P j k gc al P.dim 0 st).T k d =
          st.T k d - attrGradD gc (st.H j d) (st.T k d) * al * (1/1000))) ∧
    (P.hub_info k = 0 →
      (attrLoop P j k gc al P.dim 0 st).H j d = st.H j d ∧
      (attrLoop P j k gc al P.dim 0 st).T k d = st.T k d) ∧
    (P.move_other = false → (attrLoop P j k gc al P.dim 0 st).T = st.T) := by
  have hH := attrLoop_H_at hal j k gc al P.dim 0 st d (by omega) (by omega)
  refine ⟨fun h1 => ⟨?_, fun hmo => ?_⟩, fun h2 => ⟨?_, fun hmo => ?_⟩,
    fun h0 => ⟨?_, ?_⟩, fun hmo => attrLoop_T_const hmo j k gc al P.dim 0 st⟩
  · rw [hH, h1]
    norm_num [gradCurrentOf]
  · rw [attrLoop_T_at_mo hal hmo j k gc al P.dim 0 st d (by omega) (by omega), h1]
    norm_num [gradOtherOf]
    ring
  · rw [hH, h2]
    norm_num [gradCurrentOf]
  · rw [attrLoop_T_at_mo hal hmo j k gc al P.dim 0 st d (by omega) (by omega), h2]
    norm_num [gradOtherOf]
    ring
  · rw [hH, h0]
    norm_num [gradCurrentOf]
  · rcases hmo : P.move_other with _ | _
    · rw [attrLoop_T_const hmo j k gc al P.dim 0 st]
    · rw [attrLoop_T_at_mo hal hmo j k gc al P.dim 0 st d (by omega) (by omega), h0]
      norm_num [gradOtherOf]

/-- Witness for C7: the concrete non-aliased configuration `exParamsSelf`
at dimension 0 satisfies all four case conclusions. -/
theorem C7_hub_scale_factors_witness :
    (exParamsSelf.hub_info 1 = 1 →
      (attrLoop exParamsSelf 0 1 1 1 exParamsSelf.dim 0
          (initState exParamsSelf exHeadSelf exTailSelf)).H 0 0 =
        (initState exParamsSelf exHeadSelf exTailSelf).H 0 0 +
          attrGradD 1 ((initState exParamsSelf exHeadSelf exTailSelf).H 0 0)
            ((initState exParamsSelf exHeadSelf exTailSelf).T 1 0) * 1 * (1/100) ∧
      (exParamsSelf.move_other = true →
        (attrLoop exParamsSelf 0 1 1 1 exParamsSelf.dim 0
            (initState exParamsSelf exHeadSelf exTailSelf)).T 1 0 =
          (initState exParamsSelf exHeadSelf exTailSelf).T 1 0 -
            attrGradD 1 ((initState exParamsSelf exHeadSelf exTailSelf).H 0 0)
              ((initState exParamsSelf exHeadSelf exTailSelf).T 1 0) * 1 * (1/100))) ∧
    (exParamsSelf.hub_info 1 = 2 →
      (attrLoop exParamsSelf 0 1 1 1 exParamsSelf.dim 0
          (initState exParamsSelf exHeadSelf exTailSelf)).H 0 0 =
        (initState exParamsSelf exHeadSelf exTailSelf).H 0 0 +
          attrGradD 1 ((initState exParamsSelf exHeadSelf exTailSelf).H 0 0)
            ((initState exParamsSelf exHeadSelf exTailSelf).T 1 0) * 1 * (1/100) ∧
      (exParamsSelf.move_other = true →
        (attrLoop exParamsSelf 0 1 1 1 exParamsSelf.dim 0
            (initState exParamsSelf exHeadSelf exTailSelf)).T 1 0 =
          (initState exParamsSelf exHeadSelf exTailSelf).T 1 0 -
            attrGradD 1 ((initState exParamsSelf exHeadSelf exTailSelf).H 0 0)
              ((initState exParamsSelf exHeadSelf exTailSelf).T 1 0) * 1 * (1/1000))) ∧
    (exParamsSelf.hub_info 1 = 0 →
      (attrLoop exParamsSelf 0 1 1 1 exParamsSelf.dim 0
          (initState exParamsSelf exHeadSelf exTailSelf)).H 0 0 =
        (initState exParamsSelf exHeadSelf exTailSelf).H 0 0 ∧
      (attrLoop exParamsSelf 0 1 1 1 exParamsSelf.dim 0
          (initState exParamsSelf exHeadSelf exTailSelf)).T 1 0 =
        (initState exParamsSelf exHeadSelf exTailSelf).T 1 0) ∧
    (exParamsSelf.move_other = false →
      (attrLoop exParamsSelf 0 1 1 1 exParamsSelf.dim 0
          (initState exParamsSelf exHeadSelf exTailSelf)).T =
        (initState exParamsSelf exHeadSelf exTailSelf).T) :=
  C7_hub_scale_factors exParamsSelf 0 1 1 1
    (initState exParamsSelf exHeadSelf exTailSelf) 0 rfl (by decide)

/-- C8: each iteration of the Global Layout Refiner updates `Z` exactly as
described: `Q` is the elementwise reciprocal `(0.001+D²)⁻¹` with its
diagonal zeroed, left-multiplied by `(1−P)`, then row-normalized; the
per-pair gradient is `2·a·b·P·(1e-12+D²)^(b-1) − 2·b·Q`, multiplied
elementwise by the pairwise displacement tensor and the kernel value
`(1+a·D²^b)⁻¹` and summed over the neighbor axis; and `Z` is decremented
by `alpha` times that per-point gradient: the source loop is exactly the
iteration of `globalStepSpec`, the step written in the claim's wording. -/
theorem C8_global_step_formula (N dim : ℕ) (P Z : Mat) (a b alpha : ℚ)
    (max_iter : ℕ) (fpow : ℚ → ℚ → ℚ) :
    optimize_global_layout N dim P Z a b alpha max_iter fpow =
      (globalStepSpec N dim P a b alpha fpow)^[max_iter] Z := rfl

/-- C9: every per-dimension displacement value of the local optimizer,
before the endpoint scale factor and the learning rate are applied, has
absolute value at most 10: the attractive displacement is the clipped
`attrGradD`, and the repulsive displacement `negGradD` is either clipped
to `±10` (positive coefficient) or the flat value `10`. -/
theorem C9_displacement_bound (gc cur oth : ℚ) :
    |attrGradD gc cur oth| ≤ 10 ∧ |negGradD gc cur oth| ≤ 10 := by
  constructor
  · exact abs_clip_le _ (by norm_num)
  · unfold negGradD
    split
    · exact abs_clip_le _ (by norm_num)
    · norm_num

/-- C10: the §8 scenario — 4 points on a square, 3-edge ring graph, hub
labels `[1,1,1,0]`, `n_epochs = 1`, `negative_sample_rate = 0`.  The run
applies no repulsive displacement (`negUpd = 0`); only attractive
displacements occur (vacuously: `attrUpd = 0` as well, because with one
epoch each edge's `epoch_of_next_sample` starts at
`epochs_per_sample = 1 > 0` and never satisfies `≤ 0`, so no edge fires
and every coordinate is unchanged); and each fired edge's positive counter
advances by exactly its `epochs_per_sample` (vacuously: the fired set is
empty and all three counters still equal their initial value 1). -/
theorem C10_square_scenario :
    (nn_layout_optimize exParamsSquare 0 exSquare exSquare 1 1 false).map
      (fun r => (r.1.negUpd, r.1.attrUpd, r.1.eons 0, r.1.eons 1, r.1.eons 2)) =
      some (0, 0, 1, 1, 1) ∧
    (nn_layout_optimize exParamsSquare 0 exSquare exSquare 1 1 false).map
      (fun r => (r.1.H 0 0, r.1.H 0 1, r.1.H 1 0, r.1.H 1 1)) =
      some (exSquare 0 0, exSquare 0 1, exSquare 1 0, exSquare 1 1) ∧
    (nn_layout_optimize exParamsSquare 0 exSquare exSquare 1 1 false).map
      (fun r => (r.1.H 2 0, r.1.H 2 1, r.1.H 3 0, r.1.H 3 1)) =
      some (exSquare 2 0, exSquare 2 1, exSquare 3 0, exSquare 3 1) :=
  ⟨by decide, by decide, by decide⟩

end Umato
